import Mathlib

/-!
Verification of the Wigner 3-j / 6-j symbol calculator
(src/WIGNER_CALCULATOR.py) against its specification.

The Python file delegates the numerical core to an external
special-functions library; the specification (sections 4.1-4.4) gives the
closed-form Racah algorithm that this core computes.  Those parts are
modelled from the spec.  The input parser `get_fraction_input` and the
conversion `convert_fraction_to_numeric` are embedded directly from the
Python source, with strings as lists of characters and Python `Fraction`
values as `Rat` (both are exact rationals in lowest terms).
-/

/-- Parity sign (-1)^n for an integer n, as a rational. -/
def negOnePowZ (n : ℤ) : ℚ := if n % 2 = 0 then 1 else -1

/-- Factorial of an integer, as a rational.  Only applied to non-negative
arguments (the summation bounds below guarantee this, following spec
section 4.3: the k-range is the intersection of the non-negativity
constraints). -/
def factZ (z : ℤ) : ℚ := (Nat.factorial z.toNat : ℚ)

/-- The integer value of a rational that is known to be an integer
(numerator of the reduced form). -/
def intOf (q : ℚ) : ℤ := q.num

/-- A quantum number is an integer or half-integer (spec section 3:
denominator 1 or 2). -/
def isHalfInt (q : ℚ) : Prop := q.den = 1 ∨ q.den = 2

instance (q : ℚ) : Decidable (isHalfInt q) := by
  unfold isHalfInt; infer_instance

/-- Modelled from the spec: each (j, m) pair must satisfy "m is integer iff
j is integer (both half-integer together)" and abs m le j
(spec section 4.1). -/
def pairOK (j m : ℚ) : Prop :=
  isHalfInt j ∧ isHalfInt m ∧ ((j.den = 1) ↔ (m.den = 1)) ∧ |m| ≤ j

instance (j m : ℚ) : Decidable (pairOK j m) := by
  unfold pairOK; infer_instance

/-- Modelled from the spec: a TriangleTriple is valid iff
abs (a-b) le c le a+b and a+b+c is an integer (spec section 3). -/
def tri (a b c : ℚ) : Prop := |a - b| ≤ c ∧ c ≤ a + b ∧ (a + b + c).den = 1

instance (a b c : ℚ) : Decidable (tri a b c) := by
  unfold tri; infer_instance

/-- Modelled from the spec: validate_3j (spec section 4.1).  All angular
momenta non-negative integers or half-integers, each (j, m) pair
consistent, m1+m2+m3 = 0, and the triangle condition. -/
def validate_3j (j1 j2 j3 m1 m2 m3 : ℚ) : Prop :=
  0 ≤ j1 ∧ 0 ≤ j2 ∧ 0 ≤ j3 ∧
  pairOK j1 m1 ∧ pairOK j2 m2 ∧ pairOK j3 m3 ∧
  m1 + m2 + m3 = 0 ∧ tri j1 j2 j3

instance (j1 j2 j3 m1 m2 m3 : ℚ) : Decidable (validate_3j j1 j2 j3 m1 m2 m3) := by
  unfold validate_3j; infer_instance

/-- Modelled from the spec: validate_6j (spec section 4.1), the four
triangle checks on the triads of spec section 3. -/
def validate_6j (j1 j2 j3 j4 j5 j6 : ℚ) : Prop :=
  0 ≤ j1 ∧ 0 ≤ j2 ∧ 0 ≤ j3 ∧ 0 ≤ j4 ∧ 0 ≤ j5 ∧ 0 ≤ j6 ∧
  isHalfInt j1 ∧ isHalfInt j2 ∧ isHalfInt j3 ∧
  isHalfInt j4 ∧ isHalfInt j5 ∧ isHalfInt j6 ∧
  tri j1 j2 j3 ∧ tri j1 j5 j6 ∧ tri j4 j2 j6 ∧ tri j4 j5 j3

instance (j1 j2 j3 j4 j5 j6 : ℚ) : Decidable (validate_6j j1 j2 j3 j4 j5 j6) := by
  unfold validate_6j; infer_instance

/-- Lower summation bound of the Racah 3-j sum (intersection of the
non-negativity constraints involving +k). -/
def lo5 (D E : ℤ) : ℤ := max 0 (max (-D) (-E))

/-- Upper summation bound of the Racah 3-j sum (intersection of the
non-negativity constraints involving -k). -/
def hi5 (A B C : ℤ) : ℤ := min A (min B C)

/-- One term of the Racah 3-j sum (spec section 4.3 step 2), with
A = j1+j2-j3, B = j1-m1, C = j2+m2, D = j3-j2+m1, E = j3-j1-m2. -/
def T5 (A B C D E k : ℤ) : ℚ :=
  negOnePowZ k /
    (factZ k * factZ (A - k) * factZ (B - k) * factZ (C - k) *
      factZ (D + k) * factZ (E + k))

/-- Modelled from the spec: the Racah 3-j summation
(spec section 4.3 step 2), over the exact integer k-range. -/
def S5 (A B C D E : ℤ) : ℚ :=
  ∑ k in Finset.Icc (lo5 D E) (hi5 A B C), T5 A B C D E k

/-- Modelled from the spec: the squared triangle coefficient
Delta(a,b,c)^2 (spec section 4.3 step 1, kept under the root). -/
def delta2 (a b c : ℚ) : ℚ :=
  factZ (intOf (a + b - c)) * factZ (intOf (a - b + c)) *
    factZ (intOf (-a + b + c)) / factZ (intOf (a + b + c) + 1)

/-- Modelled from the spec: the 3-j evaluator (spec section 4.3), split as
(rational factor, radicand): the value is the first component times the
square root of the second.  On validation failure it short-circuits to
(0, 0), i.e. the exact value 0. -/
def wigner3jParts (j1 j2 j3 m1 m2 m3 : ℚ) : ℚ × ℚ :=
  if validate_3j j1 j2 j3 m1 m2 m3 then
    (negOnePowZ (intOf (j1 - j2 - m3)) *
       S5 (intOf (j1 + j2 - j3)) (intOf (j1 - m1)) (intOf (j2 + m2))
          (intOf (j3 - j2 + m1)) (intOf (j3 - j1 - m2)),
     delta2 j1 j2 j3 *
       (factZ (intOf (j1 + m1)) * factZ (intOf (j1 - m1)) *
        factZ (intOf (j2 + m2)) * factZ (intOf (j2 - m2)) *
        factZ (intOf (j3 + m3)) * factZ (intOf (j3 - m3))))
  else (0, 0)

/-- One term of the Racah 6-j sum (spec section 4.4 step 2), with
t1..t4 the four triad perimeters and x1..x3 the three crossed sums. -/
def T7 (t1 t2 t3 t4 x1 x2 x3 k : ℤ) : ℚ :=
  negOnePowZ k * factZ (k + 1) /
    (factZ (k - t1) * factZ (k - t2) * factZ (k - t3) * factZ (k - t4) *
      factZ (x1 - k) * factZ (x2 - k) * factZ (x3 - k))

/-- Modelled from the spec: the Racah 6-j summation (spec section 4.4
step 2), lower bound the max of the four perimeters, upper bound the min
of the three crossed sums. -/
def S7 (t1 t2 t3 t4 x1 x2 x3 : ℤ) : ℚ :=
  ∑ k in Finset.Icc (max t1 (max t2 (max t3 t4))) (min x1 (min x2 x3)),
    T7 t1 t2 t3 t4 x1 x2 x3 k

/-- Modelled from the spec: the 6-j evaluator (spec section 4.4), split as
(rational factor, radicand) like the 3-j one; (0, 0) on validation
failure. -/
def wigner6jParts (j1 j2 j3 j4 j5 j6 : ℚ) : ℚ × ℚ :=
  if validate_6j j1 j2 j3 j4 j5 j6 then
    (S7 (intOf (j1 + j2 + j3)) (intOf (j1 + j5 + j6))
        (intOf (j4 + j2 + j6)) (intOf (j4 + j5 + j3))
        (intOf (j1 + j2 + j4 + j5)) (intOf (j2 + j3 + j5 + j6))
        (intOf (j3 + j1 + j6 + j4)),
     delta2 j1 j2 j3 * delta2 j1 j5 j6 * delta2 j4 j2 j6 * delta2 j4 j5 j3)
  else (0, 0)

/-- Modelled from the spec: the value of the 3-j symbol as a real number,
rational factor times a single final square root (spec section 4.3
numeric policy). -/
noncomputable def calculate_3j_symbol (j1 j2 j3 m1 m2 m3 : ℚ) : ℝ :=
  ((wigner3jParts j1 j2 j3 m1 m2 m3).1 : ℝ) *
    Real.sqrt ((wigner3jParts j1 j2 j3 m1 m2 m3).2 : ℝ)

/-- Modelled from the spec: the value of the 6-j symbol as a real number
(spec section 4.4 numeric policy). -/
noncomputable def calculate_6j_symbol (j1 j2 j3 j4 j5 j6 : ℚ) : ℝ :=
  ((wigner6jParts j1 j2 j3 j4 j5 j6).1 : ℝ) *
    Real.sqrt ((wigner6jParts j1 j2 j3 j4 j5 j6).2 : ℝ)

/-! ### Embedding of the CLI input parser (get_fraction_input) -/

/-- Python whitespace characters stripped by int(). -/
def pyWS (c : Char) : Bool :=
  c = ' ' || c = '\t' || c = '\n' || c = '\r' || c = '\x0b' || c = '\x0c'

/-- Strip leading and trailing whitespace, as Python int() does. -/
def trimWS (l : List Char) : List Char :=
  ((l.dropWhile pyWS).reverse.dropWhile pyWS).reverse

/-- Digit run of a Python integer literal: digits, with single underscores
allowed only between digits. -/
def digitsCore : ℕ → List Char → Option ℕ
  | acc, [] => some acc
  | acc, '_' :: d :: rest =>
      if d.isDigit then digitsCore (10 * acc + (d.toNat - 48)) rest else none
  | _, ['_'] => none
  | acc, c :: rest =>
      if c.isDigit then digitsCore (10 * acc + (c.toNat - 48)) rest else none

/-- Non-empty digit run starting with a digit. -/
def pyIntDigits : List Char → Option ℕ
  | [] => none
  | c :: rest => if c.isDigit then digitsCore (c.toNat - 48) rest else none

/-- The Python built-in int() applied to a string: optional surrounding
whitespace, optional sign, digits (ASCII grammar).  Returns none where
Python raises ValueError. -/
def pyInt (l : List Char) : Option ℤ :=
  match trimWS l with
  | '+' :: rest => (pyIntDigits rest).map (fun n => (n : ℤ))
  | '-' :: rest => (pyIntDigits rest).map (fun n => -(n : ℤ))
  | t => (pyIntDigits t).map (fun n => (n : ℤ))

/-- Python str.split on the single character slash. -/
def splitSlash : List Char → List (List Char)
  | [] => [[]]
  | c :: rest =>
    match splitSlash rest with
    | [] => [[]]
    | cur :: others =>
        if c = '/' then [] :: cur :: others else (c :: cur) :: others

/-- The exceptions caught by the loop body of get_fraction_input. -/
inductive PyErr where
  | valueError : PyErr
  | zeroDivisionError : PyErr
deriving DecidableEq

/-- One iteration of the try-block of get_fraction_input
(src/WIGNER_CALCULATOR.py lines 96-105): if the input contains a slash,
split and build Fraction(int(num), int(den)); otherwise Fraction(int(value), 1).
Unpacking a split of length other than two raises ValueError, int() on a
malformed string raises ValueError, and Fraction with denominator 0 raises
ZeroDivisionError; all are returned as errors here. -/
def parse_attempt (value : List Char) : Except PyErr ℚ :=
  if value.contains '/' then
    match splitSlash value with
    | [a, b] =>
      match pyInt a, pyInt b with
      | some n, some d =>
          if d = 0 then .error .zeroDivisionError
          else .ok ((n : ℚ) / (d : ℚ))
      | _, _ => .error .valueError
    | _ => .error .valueError
  else
    match pyInt value with
    | some n => .ok ((n : ℚ))
    | none => .error .valueError

/-- The retry loop of get_fraction_input over the stream of user inputs:
a caught error re-prompts (moves on to the next input); none models a
still-pending prompt when the stream is exhausted. -/
def get_fraction_input : List (List Char) → Option ℚ
  | [] => none
  | s :: rest =>
    match parse_attempt s with
    | .ok q => some q
    | .error _ => get_fraction_input rest

/-! ### Embedding of convert_fraction_to_numeric -/

/-- A Python numeric value: an int, or a float (an IEEE-754 binary64
value, carried here as the exact rational it denotes). -/
inductive PyNumber where
  | intVal : ℤ → PyNumber
  | floatVal : ℚ → PyNumber
deriving DecidableEq

/-- Round a rational to the nearest integer, ties to even. -/
def roundHalfEven (q : ℚ) : ℤ :=
  if q - ⌊q⌋ < 1/2 then ⌊q⌋
  else if 1/2 < q - ⌊q⌋ then ⌊q⌋ + 1
  else if ⌊q⌋ % 2 = 0 then ⌊q⌋ else ⌊q⌋ + 1

/-- Floor of the base-2 logarithm of the absolute value of a nonzero
rational. -/
def qlog2 (q : ℚ) : ℤ :=
  if (2 : ℚ) ^ ((Nat.log 2 q.num.natAbs : ℤ) - (Nat.log 2 q.den : ℤ)) ≤ |q| then
    (Nat.log 2 q.num.natAbs : ℤ) - (Nat.log 2 q.den : ℤ)
  else (Nat.log 2 q.num.natAbs : ℤ) - (Nat.log 2 q.den : ℤ) - 1

/-- The value of the IEEE-754 binary64 double nearest to q (ties to even):
this is what Python float(Fraction) returns.  Normal range only; the
subnormal and overflow thresholds are far outside the magnitudes relevant
here. -/
def floatOfRat (q : ℚ) : ℚ :=
  if q = 0 then 0
  else (roundHalfEven (q * (2 : ℚ) ^ (-(qlog2 q - 52))) : ℚ) * (2 : ℚ) ^ (qlog2 q - 52)

/-- convert_fraction_to_numeric (src/WIGNER_CALCULATOR.py lines 14-28):
int(value) if the denominator is 1, else float(value). -/
def convert_fraction_to_numeric (q : ℚ) : PyNumber :=
  if q.den = 1 then .intVal q.num else .floatVal (floatOfRat q)

/-! ### Helper lemmas -/

lemma den_half (n : ℤ) (h : n % 2 ≠ 0) : ((n:ℚ)/2).den = 2 ∧ ((n:ℚ)/2).num = n := by
  have hnd : ¬ (2 ∣ n.natAbs) := by omega
  have hco : Nat.Coprime n.natAbs (2:ℤ).natAbs :=
    ((Nat.Prime.coprime_iff_not_dvd Nat.prime_two).mpr hnd).symm
  constructor
  · exact_mod_cast Rat.den_div_eq_of_coprime (by norm_num) hco
  · exact_mod_cast Rat.num_div_eq_of_coprime (by norm_num) hco

lemma half_den : ((1:ℚ)/2).den = 2 := by
  have h := (den_half 1 (by norm_num)).1
  simpa using h

lemma mhalf_den : ((-1:ℚ)/2).den = 2 := by
  have h := (den_half (-1) (by norm_num)).1
  simpa using h

lemma den_one_elim (q : ℚ) (h : q.den = 1) : (q.num : ℚ) = q := by
  conv_rhs => rw [← Rat.num_div_den q, h]
  push_cast; ring

/-- Evaluation of the 3-j evaluator on the first concrete scenario. -/
lemma parts3j_scenario1 : wigner3jParts 1 1 1 1 (-1) 0 = (1, 1/6) := by
  rw [wigner3jParts, if_pos (by norm_num [validate_3j, pairOK, isHalfInt, tri])]
  norm_num [intOf, delta2, factZ, Nat.factorial, negOnePowZ]
  rw [S5, show lo5 1 1 = 0 by rfl, show hi5 1 0 0 = 0 by rfl,
    show Finset.Icc (0:ℤ) 0 = {0} by decide]
  simp [T5, negOnePowZ, factZ, Nat.factorial]

lemma validate_3j_scenario2 : validate_3j (1/2) (1/2) 0 (1/2) (-1/2) 0 := by
  refine ⟨by norm_num, by norm_num, by norm_num,
    ⟨Or.inr half_den, Or.inr half_den, by simp [half_den],
      by rw [abs_of_nonneg] <;> norm_num⟩,
    ⟨Or.inr half_den, Or.inr ?_, by simp [half_den, mhalf_den], ?_⟩,
    ⟨Or.inl (by norm_num), Or.inl (by norm_num), by norm_num, by norm_num⟩,
    by norm_num, by rw [abs_of_nonneg] <;> norm_num, by norm_num, by norm_num⟩
  · exact_mod_cast mhalf_den
  · rw [show (-1/2 : ℚ) = -(1/2) by ring, abs_neg, abs_of_nonneg] <;> norm_num

/-- Evaluation of the 3-j evaluator on the second concrete scenario. -/
lemma parts3j_scenario2 : wigner3jParts (1/2) (1/2) 0 (1/2) (-1/2) 0 = (1, 1/2) := by
  rw [wigner3jParts, if_pos validate_3j_scenario2]
  norm_num [intOf, delta2, factZ, Nat.factorial, negOnePowZ]
  rw [S5, show lo5 0 0 = 0 by rfl, show hi5 1 0 0 = 0 by rfl,
    show Finset.Icc (0:ℤ) 0 = {0} by decide]
  simp [T5, negOnePowZ, factZ, Nat.factorial]

/-- Evaluation of the 6-j evaluator on the fourth concrete scenario. -/
lemma parts6j_scenario4 : wigner6jParts 1 1 1 1 1 1 = (96, 1/331776) := by
  rw [wigner6jParts, if_pos (by norm_num [validate_6j, isHalfInt, tri])]
  norm_num [intOf, delta2, factZ, Nat.factorial]
  rw [S7, show max (3:ℤ) (max 3 (max 3 3)) = 3 by rfl,
    show min (4:ℤ) (min 4 4) = 4 by rfl,
    show Finset.Icc (3:ℤ) 4 = {3, 4} by decide]
  rw [Finset.sum_insert (by decide), Finset.sum_singleton]
  norm_num [T7, negOnePowZ, factZ, Nat.factorial]

/-! ### Claim theorems -/

/-- C1: a 3-j request whose angular momenta violate the triangle
inequality abs (j1-j2) le j3 le j1+j2 evaluates to exactly 0 (the
evaluator short-circuits to the zero result; being a total function, it
raises no exception). -/
theorem c1_triangle_rejection (j1 j2 j3 m1 m2 m3 : ℚ)
    (h : ¬ (|j1 - j2| ≤ j3 ∧ j3 ≤ j1 + j2)) :
    wigner3jParts j1 j2 j3 m1 m2 m3 = (0, 0) ∧
      calculate_3j_symbol j1 j2 j3 m1 m2 m3 = 0 := by
  have hv : ¬ validate_3j j1 j2 j3 m1 m2 m3 := by
    intro hv
    exact h ⟨hv.2.2.2.2.2.2.2.1, hv.2.2.2.2.2.2.2.2.1⟩
  have hp : wigner3jParts j1 j2 j3 m1 m2 m3 = (0, 0) := by
    rw [wigner3jParts, if_neg hv]
  refine ⟨hp, ?_⟩
  rw [calculate_3j_symbol, hp]
  simp

/-- C1 witness: the concrete triangle-violating request j1=1, j2=1, j3=3
returns 0. -/
theorem c1_witness :
    calculate_3j_symbol 1 1 3 0 0 0 = 0 :=
  (c1_triangle_rejection 1 1 3 0 0 0 (by rw [abs_of_nonneg] <;> norm_num)).2

/-- C2: the 3-j symbol at j1=1, j2=1, j3=1, m1=1, m2=-1, m3=0 has the
value 1/sqrt 6, which prints as 0.40824829 at 8 fractional digits. -/
theorem c2_scenario1 :
    calculate_3j_symbol 1 1 1 1 (-1) 0 = 1 / Real.sqrt 6 ∧
      |calculate_3j_symbol 1 1 1 1 (-1) 0 - 0.40824829| < 1e-8 := by
  have hval : calculate_3j_symbol 1 1 1 1 (-1) 0 = 1 / Real.sqrt 6 := by
    rw [calculate_3j_symbol, parts3j_scenario1]
    push_cast
    rw [show ((1:ℝ)/6) = (6:ℝ)⁻¹ by norm_num, Real.sqrt_inv, one_div, one_mul]
  refine ⟨hval, ?_⟩
  rw [hval]
  have hs : (0:ℝ) < Real.sqrt 6 := Real.sqrt_pos.mpr (by norm_num)
  have h1 : (2.449489742 : ℝ) < Real.sqrt 6 :=
    (Real.lt_sqrt (by norm_num)).mpr (by norm_num)
  have h2 : Real.sqrt 6 < 2.449489743 :=
    (Real.sqrt_lt' (by norm_num)).mpr (by norm_num)
  rw [abs_sub_lt_iff]
  constructor
  · rw [sub_lt_iff_lt_add, div_lt_iff hs]
    nlinarith [h1]
  · rw [sub_lt_iff_lt_add, ← sub_lt_iff_lt_add', lt_div_iff hs]
    nlinarith [h2]

/-- C3 counterexample: on j1=1/2, j2=1/2, j3=0, m1=1/2, m2=-1/2, m3=0 the
evaluator returns +1/sqrt 2, not -1/sqrt 2 as the claim states. -/
theorem c3_counterexample :
    calculate_3j_symbol (1/2) (1/2) 0 (1/2) (-1/2) 0 = 1 / Real.sqrt 2 ∧
      calculate_3j_symbol (1/2) (1/2) 0 (1/2) (-1/2) 0 ≠ -(1 / Real.sqrt 2) := by
  have hval : calculate_3j_symbol (1/2) (1/2) 0 (1/2) (-1/2) 0 = 1 / Real.sqrt 2 := by
    rw [calculate_3j_symbol, parts3j_scenario2]
    push_cast
    rw [show ((1:ℝ)/2) = (2:ℝ)⁻¹ by norm_num, Real.sqrt_inv, one_div, one_mul]
  have hpos : (0:ℝ) < 1 / Real.sqrt 2 := by
    have := Real.sqrt_pos.mpr (show (0:ℝ) < 2 by norm_num)
    positivity
  exact ⟨hval, by rw [hval]; intro h; rw [h] at hpos; linarith⟩

/-- C3 amended: the value at j1=1/2, j2=1/2, j3=0, m1=1/2, m2=-1/2, m3=0
is +1/sqrt 2, printing as +0.70710678 at 8 fractional digits. -/
theorem c3_amended :
    calculate_3j_symbol (1/2) (1/2) 0 (1/2) (-1/2) 0 = 1 / Real.sqrt 2 ∧
      |calculate_3j_symbol (1/2) (1/2) 0 (1/2) (-1/2) 0 - 0.70710678| < 1e-8 := by
  have hval := c3_counterexample.1
  refine ⟨hval, ?_⟩
  rw [hval]
  have hs : (0:ℝ) < Real.sqrt 2 := Real.sqrt_pos.mpr (by norm_num)
  have h1 : (1.414213562 : ℝ) < Real.sqrt 2 :=
    (Real.lt_sqrt (by norm_num)).mpr (by norm_num)
  have h2 : Real.sqrt 2 < 1.414213563 :=
    (Real.sqrt_lt' (by norm_num)).mpr (by norm_num)
  rw [abs_sub_lt_iff]
  constructor
  · rw [sub_lt_iff_lt_add, div_lt_iff hs]
    nlinarith [h1]
  · rw [sub_lt_iff_lt_add, ← sub_lt_iff_lt_add', lt_div_iff hs]
    nlinarith [h2]

/-- C4: the 6-j symbol with all six angular momenta equal to 1 has the
value 1/6, printing as 0.16666667 at 8 fractional digits. -/
theorem c4_scenario4 :
    calculate_6j_symbol 1 1 1 1 1 1 = 1 / 6 ∧
      |calculate_6j_symbol 1 1 1 1 1 1 - 0.16666667| < 1e-8 := by
  have hval : calculate_6j_symbol 1 1 1 1 1 1 = 1 / 6 := by
    rw [calculate_6j_symbol, parts6j_scenario4]
    push_cast
    have hs : Real.sqrt ((1:ℝ)/331776) = 1/576 := by
      rw [show ((1:ℝ)/331776) = ((1:ℝ)/576)^2 by norm_num]
      exact Real.sqrt_sq (by norm_num)
    rw [hs]
    norm_num
  refine ⟨hval, ?_⟩
  rw [hval, abs_lt]
  constructor <;> norm_num


/-- C5: violating a non-triangle selection rule (integer/half-integer
mismatch between a j and its m, abs m exceeding j, or nonzero m1+m2+m3 for
the 3-j; a malformed angular momentum for the 6-j) makes the evaluator
return the value 0 as a normal result; the evaluators are total functions,
so no exception path exists. -/
theorem c5_selection_rules :
    (∀ j1 j2 j3 m1 m2 m3 : ℚ,
      (¬ ((j1.den = 1) ↔ (m1.den = 1)) ∨ ¬ ((j2.den = 1) ↔ (m2.den = 1)) ∨
       ¬ ((j3.den = 1) ↔ (m3.den = 1)) ∨
       j1 < |m1| ∨ j2 < |m2| ∨ j3 < |m3| ∨ m1 + m2 + m3 ≠ 0) →
      wigner3jParts j1 j2 j3 m1 m2 m3 = (0, 0) ∧
        calculate_3j_symbol j1 j2 j3 m1 m2 m3 = 0) ∧
    (∀ j1 j2 j3 j4 j5 j6 : ℚ,
      (¬ isHalfInt j1 ∨ ¬ isHalfInt j2 ∨ ¬ isHalfInt j3 ∨
       ¬ isHalfInt j4 ∨ ¬ isHalfInt j5 ∨ ¬ isHalfInt j6 ∨
       j1 < 0 ∨ j2 < 0 ∨ j3 < 0 ∨ j4 < 0 ∨ j5 < 0 ∨ j6 < 0) →
      wigner6jParts j1 j2 j3 j4 j5 j6 = (0, 0) ∧
        calculate_6j_symbol j1 j2 j3 j4 j5 j6 = 0) := by
  constructor
  · intro j1 j2 j3 m1 m2 m3 h
    have hv : ¬ validate_3j j1 j2 j3 m1 m2 m3 := by
      rintro ⟨-, -, -, p1, p2, p3, hsum, -⟩
      rcases h with h | h | h | h | h | h | h
      · exact h p1.2.2.1
      · exact h p2.2.2.1
      · exact h p3.2.2.1
      · exact absurd p1.2.2.2 (by linarith)
      · exact absurd p2.2.2.2 (by linarith)
      · exact absurd p3.2.2.2 (by linarith)
      · exact h hsum
    have hp : wigner3jParts j1 j2 j3 m1 m2 m3 = (0, 0) := by
      rw [wigner3jParts, if_neg hv]
    refine ⟨hp, ?_⟩
    rw [calculate_3j_symbol, hp]
    simp
  · intro j1 j2 j3 j4 j5 j6 h
    have hv : ¬ validate_6j j1 j2 j3 j4 j5 j6 := by
      rintro ⟨h1, h2, h3, h4, h5, h6, q1, q2, q3, q4, q5, q6, -⟩
      rcases h with h | h | h | h | h | h | h | h | h | h | h | h
      exacts [h q1, h q2, h q3, h q4, h q5, h q6,
        absurd h1 (by linarith), absurd h2 (by linarith),
        absurd h3 (by linarith), absurd h4 (by linarith),
        absurd h5 (by linarith), absurd h6 (by linarith)]
    have hp : wigner6jParts j1 j2 j3 j4 j5 j6 = (0, 0) := by
      rw [wigner6jParts, if_neg hv]
    refine ⟨hp, ?_⟩
    rw [calculate_6j_symbol, hp]
    simp

/-- C5 witness: integer j1=1 paired with half-integer m1=1/2 yields the
value 0. -/
theorem c5_witness : calculate_3j_symbol 1 1 1 (1/2) (-1/2) 0 = 0 := by
  refine (c5_selection_rules.1 1 1 1 (1/2) (-1/2) 0 (Or.inl ?_)).2
  intro hiff
  have h1 : ((1:ℚ)/2).den = 1 := hiff.mp (by norm_num)
  rw [half_den] at h1
  exact absurd h1 (by norm_num)

/-- C8: evaluation is deterministic; the evaluators are pure functions, so
equal arguments produce identical results. -/
theorem c8_deterministic :
    (∀ j1 j2 j3 m1 m2 m3 k1 k2 k3 n1 n2 n3 : ℚ,
      j1 = k1 → j2 = k2 → j3 = k3 → m1 = n1 → m2 = n2 → m3 = n3 →
      calculate_3j_symbol j1 j2 j3 m1 m2 m3 =
        calculate_3j_symbol k1 k2 k3 n1 n2 n3) ∧
    (∀ a1 a2 a3 a4 a5 a6 b1 b2 b3 b4 b5 b6 : ℚ,
      a1 = b1 → a2 = b2 → a3 = b3 → a4 = b4 → a5 = b5 → a6 = b6 →
      calculate_6j_symbol a1 a2 a3 a4 a5 a6 =
        calculate_6j_symbol b1 b2 b3 b4 b5 b6) := by
  constructor
  · intro j1 j2 j3 m1 m2 m3 k1 k2 k3 n1 n2 n3 e1 e2 e3 e4 e5 e6
    subst_vars; rfl
  · intro a1 a2 a3 a4 a5 a6 b1 b2 b3 b4 b5 b6 e1 e2 e3 e4 e5 e6
    subst_vars; rfl

/-- C8 witness: two evaluations on the same concrete request agree. -/
theorem c8_witness :
    calculate_3j_symbol 1 1 1 1 (-1) 0 = calculate_3j_symbol 1 1 1 1 (-1) 0 :=
  c8_deterministic.1 1 1 1 1 (-1) 0 1 1 1 1 (-1) 0 rfl rfl rfl rfl rfl rfl

/-- C9: the quantum-number parser accepts exactly the int and int-slash-int
textual forms with a nonzero denominator; a successful parse is one of
those two shapes (so a Fraction is never built from a zero denominator),
a failed attempt re-prompts (the loop moves to the next input, no
exception escapes), and any value the loop returns came from a successful
parse. -/
theorem c9_fraction_input :
    (∀ s q, parse_attempt s = .ok q →
      ((s.contains '/' = false) ∧ ∃ n : ℤ, pyInt s = some n ∧ q = (n:ℚ)) ∨
      (∃ a b n d, splitSlash s = [a, b] ∧ pyInt a = some n ∧ pyInt b = some d ∧
        d ≠ 0 ∧ q = (n:ℚ)/(d:ℚ))) ∧
    (∀ s rest, (∃ e, parse_attempt s = .error e) →
      get_fraction_input (s :: rest) = get_fraction_input rest) ∧
    (∀ l q, get_fraction_input l = some q → ∃ s ∈ l, parse_attempt s = .ok q) := by
  refine ⟨?_, ?_, ?_⟩
  · intro s q h
    rw [parse_attempt] at h
    by_cases hc : s.contains '/'
    · rw [if_pos hc] at h
      right
      split at h
      next a b hsp =>
        cases hn : pyInt a with
        | none => rw [hn] at h; simp at h
        | some n =>
          cases hd : pyInt b with
          | none => rw [hn, hd] at h; simp at h
          | some d =>
            rw [hn, hd] at h
            dsimp only at h
            by_cases hz : d = 0
            · rw [if_pos hz] at h; simp at h
            · rw [if_neg hz] at h
              injection h with h
              exact ⟨a, b, n, d, hsp, hn, hd, hz, h.symm⟩
      next => simp at h
    · rw [if_neg hc] at h
      left
      cases hn : pyInt s with
      | none => rw [hn] at h; simp at h
      | some n =>
        rw [hn] at h
        injection h with h
        exact ⟨by simpa using hc, n, rfl, h.symm⟩
  · intro s rest he
    obtain ⟨e, he⟩ := he
    simp [get_fraction_input, he]
  · intro l
    induction l with
    | nil => intro q h; simp [get_fraction_input] at h
    | cons s rest ih =>
      intro q h
      rw [get_fraction_input] at h
      cases hp : parse_attempt s with
      | ok v =>
        rw [hp] at h
        injection h with h
        exact ⟨s, List.mem_cons_self s rest, by rw [hp, h]⟩
      | error e =>
        rw [hp] at h
        obtain ⟨t, ht, hok⟩ := ih q h
        exact ⟨t, List.mem_cons_of_mem s ht, hok⟩

/-- C9 witness: the malformed input 1/0 re-prompts and the loop then
returns the value parsed from the input 7. -/
theorem c9_witness :
    get_fraction_input [['1', '/', '0'], ['7']] = get_fraction_input [['7']] ∧
      ∃ s ∈ [['1', '/', '0'], ['7']], parse_attempt s = .ok 7 := by
  constructor
  · exact c9_fraction_input.2.1 ['1', '/', '0'] [['7']] ⟨.zeroDivisionError, by rfl⟩
  · exact c9_fraction_input.2.2 [['1', '/', '0'], ['7']] 7 (by rfl)

/-! ### Float conversion lemmas (for convert_fraction_to_numeric) -/

lemma roundHalfEven_intCast (z : ℤ) : roundHalfEven (z:ℚ) = z := by
  rw [roundHalfEven]
  simp

lemma den_cast_pos (q : ℚ) : (0:ℚ) < (q.den : ℚ) := by exact_mod_cast q.pos

lemma abs_eq_natAbs_div_den (q : ℚ) : |q| = (q.num.natAbs : ℚ) / (q.den : ℚ) := by
  rw [Int.cast_natAbs, Int.cast_abs, ← abs_of_pos (den_cast_pos q), ← abs_div,
    Rat.num_div_den]

lemma qlog2_le (q : ℚ) (h : q ≠ 0) : (2:ℚ) ^ (qlog2 q) ≤ |q| := by
  rw [qlog2]
  set a := Nat.log 2 q.num.natAbs with ha
  set b := Nat.log 2 q.den with hb
  split
  · assumption
  · next hlt =>
    have hnum : q.num.natAbs ≠ 0 := by
      simpa [Int.natAbs_eq_zero] using (Rat.num_ne_zero).mpr h
    have h1 : ((2:ℚ))^(a:ℕ) ≤ (q.num.natAbs : ℚ) := by
      exact_mod_cast Nat.pow_log_le_self 2 hnum
    have h2 : ((q.den : ℚ)) < (2:ℚ)^((b:ℕ)+1) := by
      exact_mod_cast Nat.lt_pow_succ_log_self (by norm_num) q.den
    have hnum0 : (0:ℚ) < (q.num.natAbs : ℚ) := by
      exact_mod_cast Nat.pos_of_ne_zero hnum
    have key : (2:ℚ)^((a:ℤ) - (b:ℤ) - 1) < |q| := by
      rw [abs_eq_natAbs_div_den q]
      have e1 : (2:ℚ)^((a:ℤ) - (b:ℤ) - 1) = (2:ℚ)^(a:ℕ) / (2:ℚ)^((b:ℕ)+1) := by
        rw [show ((a:ℤ) - (b:ℤ) - 1) = (a:ℤ) - ((b:ℤ)+1) by ring,
          zpow_sub₀ (show (2:ℚ) ≠ 0 by norm_num), zpow_natCast,
          show ((b:ℤ)+1) = (((b+1:ℕ)):ℤ) by push_cast; ring, zpow_natCast]
      rw [e1]
      calc (2:ℚ)^(a:ℕ) / (2:ℚ)^((b:ℕ)+1)
          ≤ (q.num.natAbs : ℚ) / (2:ℚ)^((b:ℕ)+1) :=
            div_le_div_of_nonneg_right h1 (by positivity) |>.trans_eq rfl
        _ < (q.num.natAbs : ℚ) / (q.den : ℚ) :=
            div_lt_div_of_pos_left hnum0 (den_cast_pos q) h2
    exact key.le

/-- A half-integer whose numerator fits in 53 bits converts to a float
exactly. -/
lemma floatOfRat_exact_half (q : ℚ) (hden : q.den = 2) (hnum : |q.num| < 2^53) :
    floatOfRat q = q := by
  have hq0 : q ≠ 0 := by
    intro h
    rw [h] at hden
    simp at hden
  rw [floatOfRat, if_neg hq0]
  have habs : |q| < (2:ℚ)^(52:ℤ) := by
    rw [abs_eq_natAbs_div_den q, hden]
    have hn : (q.num.natAbs : ℚ) < 2^53 := by
      have h1 : (q.num.natAbs : ℤ) < 2^53 := by
        rw [Int.abs_eq_natAbs] at hnum
        exact_mod_cast hnum
      exact_mod_cast h1
    have h52 : (2:ℚ)^(52:ℤ) = 2^(52:ℕ) := by norm_num
    rw [h52]
    push_cast
    linarith
  have hlog : qlog2 q ≤ 51 := by
    by_contra hgt
    push_neg at hgt
    have h1 : (2:ℚ)^(52:ℤ) ≤ (2:ℚ)^(qlog2 q) := zpow_le_zpow_right₀ (by norm_num) hgt
    have h2 := qlog2_le q hq0
    linarith
  set n : ℕ := (-(qlog2 q - 52) - 1).toNat with hn
  have hq2 : q * 2 = (q.num : ℚ) := by
    conv_lhs => rw [← Rat.num_div_den q, hden]
    push_cast
    ring
  have hscale : q * (2:ℚ)^(-(qlog2 q - 52)) = ((q.num * 2^n : ℤ) : ℚ) := by
    have hsplit : (-(qlog2 q - 52)) = (n:ℤ) + 1 := by omega
    rw [hsplit, zpow_add₀ (show (2:ℚ) ≠ 0 by norm_num), zpow_natCast, zpow_one]
    push_cast
    rw [← hq2]
    ring
  rw [hscale, roundHalfEven_intCast, ← hscale, mul_assoc,
    ← zpow_add₀ (show (2:ℚ) ≠ 0 by norm_num)]
  norm_num

lemma q0_facts : ((2^53 + 1 : ℚ)/2).den = 2 ∧ ((2^53 + 1 : ℚ)/2).num = 2^53 + 1 := by
  have h := den_half (2^53+1) (by norm_num)
  have he : ((2^53 + 1 : ℚ)/2) = (((2^53+1 : ℤ)) : ℚ)/2 := by push_cast; ring
  rw [he]
  exact h

lemma qlog2_q0 : qlog2 ((2^53 + 1 : ℚ)/2) = 52 := by
  have hnat : ((2^53 + 1 : ℤ)).natAbs = 2^53 + 1 := by
    rw [show ((2:ℤ)^53 + 1) = ((2^53 + 1 : ℕ) : ℤ) by norm_num, Int.natAbs_ofNat]
  rw [qlog2, q0_facts.1, q0_facts.2, hnat]
  rw [show Nat.log 2 (2^53 + 1) = 53 from
    Nat.log_eq_of_pow_le_of_lt_pow (by norm_num) (by norm_num)]
  rw [show Nat.log 2 2 = 1 from
    Nat.log_eq_of_pow_le_of_lt_pow (by norm_num) (by norm_num)]
  rw [if_pos (by rw [abs_of_pos (by positivity)]; norm_num)]
  norm_num

lemma floor_q0 : ⌊((2:ℚ)^53 + 1)/2⌋ = 2^52 := by
  apply Int.floor_eq_iff.mpr
  constructor <;> push_cast <;> norm_num

/-- The numerator 2^53 + 1 does not fit in the 53-bit significand: the
tie q0 = 2^52 + 1/2 rounds to the even neighbour 2^52. -/
lemma floatOfRat_q0 : floatOfRat ((2^53 + 1 : ℚ)/2) = 2^52 := by
  rw [floatOfRat, if_neg (by positivity), qlog2_q0,
    show (-(52 - 52 : ℤ)) = 0 by norm_num, show ((52:ℤ) - 52) = 0 by norm_num,
    zpow_zero, mul_one, mul_one]
  rw [roundHalfEven, floor_q0]
  rw [if_neg (by push_cast; norm_num), if_neg (by push_cast; norm_num),
    if_pos (by norm_num)]
  push_cast
  norm_num

/-- C10 counterexample: the half-integer (2^53+1)/2 (denominator 2 in
lowest terms) is converted to the float 2^52, which is not numerically
equal to the input, so the conversion does lose precision on a
denominator-2 fraction. -/
theorem c10_counterexample :
    ((2^53 + 1 : ℚ)/2).den = 2 ∧
      convert_fraction_to_numeric ((2^53 + 1 : ℚ)/2) = .floatVal (2^52) ∧
      (2^52 : ℚ) ≠ (2^53 + 1 : ℚ)/2 := by
  refine ⟨q0_facts.1, ?_, by norm_num⟩
  rw [convert_fraction_to_numeric, if_neg (by rw [q0_facts.1]; norm_num),
    floatOfRat_q0]

/-- C10 amended: convert_fraction_to_numeric returns an int exactly when
the reduced denominator is 1 and a float otherwise; a half-integer
(denominator 2) converts to a float of exactly equal value provided its
numerator is below 2^53 (the float significand width), which covers every
realistic quantum number. -/
theorem c10_amended (q : ℚ) :
    (q.den = 1 → convert_fraction_to_numeric q = .intVal q.num) ∧
    (q.den ≠ 1 → convert_fraction_to_numeric q = .floatVal (floatOfRat q)) ∧
    (q.den = 2 → |q.num| < 2^53 → convert_fraction_to_numeric q = .floatVal q) := by
  refine ⟨fun h => by rw [convert_fraction_to_numeric, if_pos h],
    fun h => by rw [convert_fraction_to_numeric, if_neg h], fun h2 hlt => ?_⟩
  rw [convert_fraction_to_numeric, if_neg (by rw [h2]; norm_num),
    floatOfRat_exact_half q h2 hlt]

/-- C10 witness: 3/2 is a half-integer with a small numerator and
converts to the float of exactly the same value. -/
theorem c10_witness :
    ((3/2 : ℚ).den = 2 ∧ |(3/2 : ℚ).num| < 2^53) ∧
      convert_fraction_to_numeric (3/2) = .floatVal (3/2) := by
  have hd : (3/2 : ℚ).den = 2 := by
    rw [show (3/2 : ℚ) = ((3:ℤ):ℚ)/2 by norm_num]
    exact (den_half 3 (by norm_num)).1
  have hn : (3/2 : ℚ).num = 3 := by
    rw [show (3/2 : ℚ) = ((3:ℤ):ℚ)/2 by norm_num]
    exact (den_half 3 (by norm_num)).2
  exact ⟨⟨hd, by rw [hn]; norm_num⟩,
    (c10_amended (3/2)).2.2 hd (by rw [hn]; norm_num)⟩

/-! ### Symmetries of the Racah 3-j sum -/

lemma negOnePowZ_add (a b : ℤ) : negOnePowZ (a+b) = negOnePowZ a * negOnePowZ b := by
  unfold negOnePowZ
  rcases Int.emod_two_eq a with ha | ha <;> rcases Int.emod_two_eq b with hb | hb
  · rw [show (a+b)%2 = 0 by omega, ha, hb]; norm_num
  · rw [show (a+b)%2 = 1 by omega, ha, hb]; norm_num
  · rw [show (a+b)%2 = 1 by omega, ha, hb]; norm_num
  · rw [show (a+b)%2 = 0 by omega, ha, hb]; norm_num

lemma negOnePowZ_congr (a b : ℤ) (h : a % 2 = b % 2) : negOnePowZ a = negOnePowZ b := by
  rw [negOnePowZ, negOnePowZ, h]

lemma negOnePowZ_mul_self (a : ℤ) : negOnePowZ a * negOnePowZ a = 1 := by
  rw [negOnePowZ]
  split <;> norm_num

lemma negOnePowZ_sub (a b : ℤ) : negOnePowZ (a-b) = negOnePowZ a * negOnePowZ b := by
  rw [negOnePowZ_congr (a-b) (a+b) (by omega), negOnePowZ_add]

lemma sign_cancel (d u v : ℚ) (hd : d * d = 1) (huv : u = v) : u = d * (d * v) := by
  rw [huv, ← mul_assoc, hd, one_mul]

lemma S5_swap12 (A B C D E : ℤ) : S5 A B C D E = S5 B A C D E := by
  rw [S5, S5]
  rw [show hi5 B A C = hi5 A B C by rw [hi5, hi5]; omega]
  exact Finset.sum_congr rfl fun k _ => by rw [T5, T5]; ring

lemma S5_swap23 (A B C D E : ℤ) : S5 A B C D E = S5 A C B D E := by
  rw [S5, S5]
  rw [show hi5 A C B = hi5 A B C by rw [hi5, hi5]; omega]
  exact Finset.sum_congr rfl fun k _ => by rw [T5, T5]; ring

lemma S5_swapDE (A B C D E : ℤ) : S5 A B C D E = S5 A B C E D := by
  rw [S5, S5]
  rw [show lo5 E D = lo5 D E by rw [lo5, lo5]; omega]
  exact Finset.sum_congr rfl fun k _ => by rw [T5, T5]; ring

/-- Reindexing the Racah sum by k to k + D. -/
lemma S5_shift (A B C D E : ℤ) :
    S5 A B C D E = negOnePowZ D * S5 (A+D) (B+D) (C+D) (-D) (E-D) := by
  rw [S5, S5, Finset.mul_sum]
  rw [show Finset.Icc (lo5 (-D) (E-D)) (hi5 (A+D) (B+D) (C+D)) =
      (Finset.Icc (lo5 D E) (hi5 A B C)).map (addRightEmbedding D) by
    rw [Finset.map_add_right_Icc]
    congr 1
    · rw [lo5, lo5]; omega
    · rw [hi5, hi5]; omega]
  rw [Finset.sum_map]
  refine Finset.sum_congr rfl fun k _ => ?_
  show T5 A B C D E k = negOnePowZ D * T5 (A+D) (B+D) (C+D) (-D) (E-D) (addRightEmbedding D k)
  rw [show addRightEmbedding D k = k + D from rfl, T5, T5]
  rw [show A + D - (k + D) = A - k by ring, show B + D - (k + D) = B - k by ring,
    show C + D - (k + D) = C - k by ring, show -D + (k + D) = k by ring,
    show E - D + (k + D) = E + k by ring, show (k : ℤ) + D = D + k by ring,
    negOnePowZ_add D k, mul_div_assoc]
  exact sign_cancel _ _ _ (negOnePowZ_mul_self D) (by ring)

/-- Reindexing the Racah sum by k to A - k. -/
lemma S5_reflect (A B C D E : ℤ) :
    S5 A B C D E = negOnePowZ A * S5 A (A+D) (A+E) (B-A) (C-A) := by
  rw [S5, S5, Finset.mul_sum]
  refine Finset.sum_nbij' (fun k => A - k) (fun k => A - k) ?_ ?_ ?_ ?_ ?_
  · intro k hk
    simp only [Finset.mem_Icc, lo5, hi5] at hk ⊢
    omega
  · intro k hk
    simp only [Finset.mem_Icc, lo5, hi5] at hk ⊢
    omega
  · intro k _
    show A - (A - k) = k
    omega
  · intro k _
    show A - (A - k) = k
    omega
  · intro k _
    show T5 A B C D E k = negOnePowZ A * T5 A (A+D) (A+E) (B-A) (C-A) (A - k)
    rw [T5, T5]
    rw [show A + D - (A - k) = D + k by ring,
      show A + E - (A - k) = E + k by ring, show B - A + (A - k) = B - k by ring,
      show C - A + (A - k) = C - k by ring, show A - (A - k) = k by ring,
      negOnePowZ_sub A k, mul_div_assoc]
    exact sign_cancel _ _ _ (negOnePowZ_mul_self A) (by ring)

/-- Cyclic relation between two signed Racah sums, at the integer level. -/
lemma S5_cyc_int (A B C D E Ac Bc Cc Dc Ec F Fc : ℤ)
    (h1 : Ac + Dc = C) (h2 : Bc + Dc = A) (h3 : Cc + Dc = B)
    (h4 : -Dc = E) (h5 : Ec - Dc = D) (hpar : (Fc + Dc) % 2 = F % 2) :
    negOnePowZ Fc * S5 Ac Bc Cc Dc Ec = negOnePowZ F * S5 A B C D E := by
  rw [S5_shift Ac Bc Cc Dc Ec, h1, h2, h3, h4, h5]
  rw [← S5_swap12 A C B E D, ← S5_swap23 A B C E D, ← S5_swapDE A B C D E]
  rw [← mul_assoc, ← negOnePowZ_add, negOnePowZ_congr _ _ hpar]

/-- Relation between the signed Racah sums of a request and of the request
with all magnetic numbers negated, at the integer level. -/
lemma S5_neg_int (A B C D E B2 C2 D2 E2 F F2 : ℤ)
    (h1 : A + D = B2) (h2 : A + E = C2) (h3 : B - A = D2) (h4 : C - A = E2)
    (hpar : F2 % 2 = (F + A) % 2) :
    negOnePowZ F2 * S5 A B2 C2 D2 E2 = negOnePowZ F * S5 A B C D E := by
  rw [← h1, ← h2, ← h3, ← h4, S5_reflect A B C D E, ← mul_assoc, ← negOnePowZ_add,
    negOnePowZ_congr _ _ hpar]

/-! ### From validated rational requests to integers -/

lemma isHalfInt_double (q : ℚ) (h : isHalfInt q) : ∃ n : ℤ, (n:ℚ) = 2*q := by
  rcases h with h | h
  · refine ⟨2*q.num, ?_⟩
    push_cast
    rw [den_one_elim q h]
  · refine ⟨q.num, ?_⟩
    conv_rhs => rw [← Rat.num_div_den q, h]
    push_cast
    ring

lemma den_one_iff_even (q : ℚ) (n : ℤ) (hn : (n:ℚ) = 2*q) : (q.den = 1 ↔ n % 2 = 0) := by
  constructor
  · intro h
    have h1 : (n:ℚ) = ((2*q.num : ℤ):ℚ) := by
      push_cast
      rw [den_one_elim q h, hn]
    have h2 : n = 2*q.num := by exact_mod_cast h1
    omega
  · intro h
    obtain ⟨t, ht⟩ : ∃ t, n = 2*t := ⟨n/2, by omega⟩
    have hq : q = (t:ℚ) := by
      rw [ht] at hn
      push_cast at hn
      linarith
    rw [hq]
    exact Rat.den_intCast t

/-- A rational u with an even doubled value n is an integer, its intOf is
that integer, and twice intOf recovers n. -/
lemma intOf_spec (u : ℚ) (n : ℤ) (hn : (n:ℚ) = 2*u) (he : n % 2 = 0) :
    ((intOf u : ℤ) : ℚ) = u ∧ 2 * intOf u = n := by
  obtain ⟨t, ht⟩ : ∃ t, n = 2*t := ⟨n/2, by omega⟩
  have hq : u = (t:ℚ) := by
    rw [ht] at hn
    push_cast at hn
    linarith
  constructor
  · rw [hq, intOf, Rat.num_intCast]
  · rw [hq, intOf, Rat.num_intCast]
    omega

/-- A validated 3-j request consists of half-integers: doubling gives
integers with matching parities, zero m-sum and even perimeter. -/
lemma validate_3j_facts (j1 j2 j3 m1 m2 m3 : ℚ) (h : validate_3j j1 j2 j3 m1 m2 m3) :
    ∃ J1 J2 J3 M1 M2 M3 : ℤ,
      (J1:ℚ) = 2*j1 ∧ (J2:ℚ) = 2*j2 ∧ (J3:ℚ) = 2*j3 ∧
      (M1:ℚ) = 2*m1 ∧ (M2:ℚ) = 2*m2 ∧ (M3:ℚ) = 2*m3 ∧
      J1 % 2 = M1 % 2 ∧ J2 % 2 = M2 % 2 ∧ J3 % 2 = M3 % 2 ∧
      M1 + M2 + M3 = 0 ∧ (J1 + J2 + J3) % 2 = 0 := by
  obtain ⟨-, -, -, p1, p2, p3, hsum, htri⟩ := h
  obtain ⟨J1, hJ1⟩ := isHalfInt_double j1 p1.1
  obtain ⟨J2, hJ2⟩ := isHalfInt_double j2 p2.1
  obtain ⟨J3, hJ3⟩ := isHalfInt_double j3 p3.1
  obtain ⟨M1, hM1⟩ := isHalfInt_double m1 p1.2.1
  obtain ⟨M2, hM2⟩ := isHalfInt_double m2 p2.2.1
  obtain ⟨M3, hM3⟩ := isHalfInt_double m3 p3.2.1
  refine ⟨J1, J2, J3, M1, M2, M3, hJ1, hJ2, hJ3, hM1, hM2, hM3, ?_, ?_, ?_, ?_, ?_⟩
  · have e1 : (J1 % 2 = 0) ↔ (M1 % 2 = 0) := by
      rw [← den_one_iff_even j1 J1 hJ1, ← den_one_iff_even m1 M1 hM1]
      exact p1.2.2.1
    omega
  · have e2 : (J2 % 2 = 0) ↔ (M2 % 2 = 0) := by
      rw [← den_one_iff_even j2 J2 hJ2, ← den_one_iff_even m2 M2 hM2]
      exact p2.2.2.1
    omega
  · have e3 : (J3 % 2 = 0) ↔ (M3 % 2 = 0) := by
      rw [← den_one_iff_even j3 J3 hJ3, ← den_one_iff_even m3 M3 hM3]
      exact p3.2.2.1
    omega
  · have hs : ((M1 + M2 + M3 : ℤ):ℚ) = ((0:ℤ):ℚ) := by
      push_cast
      rw [hM1, hM2, hM3]
      push_cast at hsum ⊢
      linarith
    exact_mod_cast hs
  · have hp := den_one_elim _ htri.2.2
    have hs : ((J1 + J2 + J3 : ℤ):ℚ) = ((2 * (j1+j2+j3).num : ℤ):ℚ) := by
      push_cast
      rw [hJ1, hJ2, hJ3, hp]
      ring
    have h2 : J1 + J2 + J3 = 2 * (j1+j2+j3).num := by exact_mod_cast hs
    omega

lemma tri_rot (a b c : ℚ) (h : tri a b c) : tri b c a := by
  obtain ⟨h1, h2, h3⟩ := h
  rw [abs_le] at h1
  refine ⟨abs_le.mpr ⟨by linarith, by linarith⟩, by linarith, ?_⟩
  rw [show b + c + a = a + b + c by ring]
  exact h3

lemma validate_3j_cyc (j1 j2 j3 m1 m2 m3 : ℚ) (h : validate_3j j1 j2 j3 m1 m2 m3) :
    validate_3j j2 j3 j1 m2 m3 m1 := by
  obtain ⟨h1, h2, h3, p1, p2, p3, hsum, htri⟩ := h
  exact ⟨h2, h3, h1, p2, p3, p1, by linarith, tri_rot _ _ _ htri⟩

lemma pairOK_neg (j m : ℚ) (p : pairOK j m) : pairOK j (-m) := by
  obtain ⟨q1, q2, q3, q4⟩ := p
  refine ⟨q1, ?_, ?_, ?_⟩
  · unfold isHalfInt at q2 ⊢
    rw [Rat.den_neg_eq_den]
    exact q2
  · rw [Rat.den_neg_eq_den]
    exact q3
  · rw [abs_neg]
    exact q4

lemma validate_3j_neg (j1 j2 j3 m1 m2 m3 : ℚ) (h : validate_3j j1 j2 j3 m1 m2 m3) :
    validate_3j j1 j2 j3 (-m1) (-m2) (-m3) := by
  obtain ⟨h1, h2, h3, p1, p2, p3, hsum, htri⟩ := h
  exact ⟨h1, h2, h3, pairOK_neg _ _ p1, pairOK_neg _ _ p2, pairOK_neg _ _ p3,
    by linarith, htri⟩

lemma parts_cyc (j1 j2 j3 m1 m2 m3 : ℚ) (h : validate_3j j1 j2 j3 m1 m2 m3) :
    wigner3jParts j2 j3 j1 m2 m3 m1 = wigner3jParts j1 j2 j3 m1 m2 m3 := by
  obtain ⟨J1, J2, J3, M1, M2, M3, hJ1, hJ2, hJ3, hM1, hM2, hM3,
    e1, e2, e3, hs, hper⟩ := validate_3j_facts j1 j2 j3 m1 m2 m3 h
  have hc := validate_3j_cyc j1 j2 j3 m1 m2 m3 h
  rw [wigner3jParts, if_pos hc, wigner3jParts, if_pos h]
  have hA := intOf_spec (j1+j2-j3) (J1+J2-J3)
    (by push_cast; rw [hJ1, hJ2, hJ3]; ring) (by omega)
  have hB := intOf_spec (j1-m1) (J1-M1)
    (by push_cast; rw [hJ1, hM1]; ring) (by omega)
  have hC := intOf_spec (j2+m2) (J2+M2)
    (by push_cast; rw [hJ2, hM2]; ring) (by omega)
  have hD := intOf_spec (j3-j2+m1) (J3-J2+M1)
    (by push_cast; rw [hJ3, hJ2, hM1]; ring) (by omega)
  have hE := intOf_spec (j3-j1-m2) (J3-J1-M2)
    (by push_cast; rw [hJ3, hJ1, hM2]; ring) (by omega)
  have hF := intOf_spec (j1-j2-m3) (J1-J2-M3)
    (by push_cast; rw [hJ1, hJ2, hM3]; ring) (by omega)
  have hAc := intOf_spec (j2+j3-j1) (J2+J3-J1)
    (by push_cast; rw [hJ2, hJ3, hJ1]; ring) (by omega)
  have hBc := intOf_spec (j2-m2) (J2-M2)
    (by push_cast; rw [hJ2, hM2]; ring) (by omega)
  have hCc := intOf_spec (j3+m3) (J3+M3)
    (by push_cast; rw [hJ3, hM3]; ring) (by omega)
  have hDc := intOf_spec (j1-j3+m2) (J1-J3+M2)
    (by push_cast; rw [hJ1, hJ3, hM2]; ring) (by omega)
  have hFc := intOf_spec (j2-j3-m1) (J2-J3-M1)
    (by push_cast; rw [hJ2, hJ3, hM1]; ring) (by omega)
  refine Prod.ext ?_ ?_
  · show negOnePowZ (intOf (j2 - j3 - m1)) *
        S5 (intOf (j2 + j3 - j1)) (intOf (j2 - m2)) (intOf (j3 + m3))
          (intOf (j1 - j3 + m2)) (intOf (j1 - j2 - m3)) =
      negOnePowZ (intOf (j1 - j2 - m3)) *
        S5 (intOf (j1 + j2 - j3)) (intOf (j1 - m1)) (intOf (j2 + m2))
          (intOf (j3 - j2 + m1)) (intOf (j3 - j1 - m2))
    exact S5_cyc_int _ _ _ _ _ _ _ _ _ _ _ _
      (by omega) (by omega) (by omega) (by omega) (by omega) (by omega)
  · show delta2 j2 j3 j1 *
        (factZ (intOf (j2 + m2)) * factZ (intOf (j2 - m2)) *
         factZ (intOf (j3 + m3)) * factZ (intOf (j3 - m3)) *
         factZ (intOf (j1 + m1)) * factZ (intOf (j1 - m1))) =
      delta2 j1 j2 j3 *
        (factZ (intOf (j1 + m1)) * factZ (intOf (j1 - m1)) *
         factZ (intOf (j2 + m2)) * factZ (intOf (j2 - m2)) *
         factZ (intOf (j3 + m3)) * factZ (intOf (j3 - m3)))
    have hdelta : delta2 j2 j3 j1 = delta2 j1 j2 j3 := by
      rw [delta2, delta2]
      rw [show j2 + j3 - j1 = -j1 + j2 + j3 by ring,
        show j2 - j3 + j1 = j1 + j2 - j3 by ring,
        show -j2 + j3 + j1 = j1 - j2 + j3 by ring,
        show j2 + j3 + j1 = j1 + j2 + j3 by ring]
      ring
    rw [hdelta]
    ring

set_option maxHeartbeats 2000000 in
lemma parts_neg (j1 j2 j3 m1 m2 m3 : ℚ) (h : validate_3j j1 j2 j3 m1 m2 m3) :
    wigner3jParts j1 j2 j3 (-m1) (-m2) (-m3) =
      (negOnePowZ (intOf (j1 + j2 + j3)) * (wigner3jParts j1 j2 j3 m1 m2 m3).1,
       (wigner3jParts j1 j2 j3 m1 m2 m3).2) := by
  obtain ⟨J1, J2, J3, M1, M2, M3, hJ1, hJ2, hJ3, hM1, hM2, hM3,
    e1, e2, e3, hs, hper⟩ := validate_3j_facts j1 j2 j3 m1 m2 m3 h
  have hn := validate_3j_neg j1 j2 j3 m1 m2 m3 h
  rw [wigner3jParts, if_pos hn, wigner3jParts, if_pos h]
  have hA := intOf_spec (j1+j2-j3) (J1+J2-J3)
    (by push_cast; rw [hJ1, hJ2, hJ3]; ring) (by omega)
  have hB := intOf_spec (j1-m1) (J1-M1)
    (by push_cast; rw [hJ1, hM1]; ring) (by omega)
  have hC := intOf_spec (j2+m2) (J2+M2)
    (by push_cast; rw [hJ2, hM2]; ring) (by omega)
  have hD := intOf_spec (j3-j2+m1) (J3-J2+M1)
    (by push_cast; rw [hJ3, hJ2, hM1]; ring) (by omega)
  have hE := intOf_spec (j3-j1-m2) (J3-J1-M2)
    (by push_cast; rw [hJ3, hJ1, hM2]; ring) (by omega)
  have hF := intOf_spec (j1-j2-m3) (J1-J2-M3)
    (by push_cast; rw [hJ1, hJ2, hM3]; ring) (by omega)
  have hB2 := intOf_spec (j1+m1) (J1+M1)
    (by push_cast; rw [hJ1, hM1]; ring) (by omega)
  have hC2 := intOf_spec (j2-m2) (J2-M2)
    (by push_cast; rw [hJ2, hM2]; ring) (by omega)
  have hD2 := intOf_spec (j3-j2-m1) (J3-J2-M1)
    (by push_cast; rw [hJ3, hJ2, hM1]; ring) (by omega)
  have hE2 := intOf_spec (j3-j1+m2) (J3-J1+M2)
    (by push_cast; rw [hJ3, hJ1, hM2]; ring) (by omega)
  have hF2 := intOf_spec (j1-j2+m3) (J1-J2+M3)
    (by push_cast; rw [hJ1, hJ2, hM3]; ring) (by omega)
  have hP := intOf_spec (j1+j2+j3) (J1+J2+J3)
    (by push_cast; rw [hJ1, hJ2, hJ3]; ring) (by omega)
  refine Prod.ext ?_ ?_
  · show negOnePowZ (intOf (j1 - j2 - -m3)) *
        S5 (intOf (j1 + j2 - j3)) (intOf (j1 - -m1)) (intOf (j2 + -m2))
          (intOf (j3 - j2 + -m1)) (intOf (j3 - j1 - -m2)) =
      negOnePowZ (intOf (j1 + j2 + j3)) *
        (negOnePowZ (intOf (j1 - j2 - m3)) *
          S5 (intOf (j1 + j2 - j3)) (intOf (j1 - m1)) (intOf (j2 + m2))
            (intOf (j3 - j2 + m1)) (intOf (j3 - j1 - m2)))
    rw [show j1 - -m1 = j1 + m1 by ring, show j2 + -m2 = j2 - m2 by ring,
      show j3 - j2 + -m1 = j3 - j2 - m1 by ring,
      show j3 - j1 - -m2 = j3 - j1 + m2 by ring,
      show j1 - j2 - -m3 = j1 - j2 + m3 by ring,
      ← mul_assoc, ← negOnePowZ_add]
    exact S5_neg_int (intOf (j1+j2-j3)) (intOf (j1-m1)) (intOf (j2+m2))
      (intOf (j3-j2+m1)) (intOf (j3-j1-m2)) (intOf (j1+m1)) (intOf (j2-m2))
      (intOf (j3-j2-m1)) (intOf (j3-j1+m2))
      (intOf (j1+j2+j3) + intOf (j1-j2-m3)) (intOf (j1-j2+m3))
      (by omega) (by omega) (by omega) (by omega) (by omega)
  · show delta2 j1 j2 j3 *
        (factZ (intOf (j1 + -m1)) * factZ (intOf (j1 - -m1)) *
         factZ (intOf (j2 + -m2)) * factZ (intOf (j2 - -m2)) *
         factZ (intOf (j3 + -m3)) * factZ (intOf (j3 - -m3))) =
      delta2 j1 j2 j3 *
        (factZ (intOf (j1 + m1)) * factZ (intOf (j1 - m1)) *
         factZ (intOf (j2 + m2)) * factZ (intOf (j2 - m2)) *
         factZ (intOf (j3 + m3)) * factZ (intOf (j3 - m3)))
    rw [show j1 + -m1 = j1 - m1 by ring, show j1 - -m1 = j1 + m1 by ring,
      show j2 + -m2 = j2 - m2 by ring, show j2 - -m2 = j2 + m2 by ring,
      show j3 + -m3 = j3 - m3 by ring, show j3 - -m3 = j3 + m3 by ring]
    ring

/-- C6: for a valid 3-j request, cyclically permuting the three (j, m)
columns leaves the value unchanged (both cyclic permutations). -/
theorem c6_cyclic (j1 j2 j3 m1 m2 m3 : ℚ) (h : validate_3j j1 j2 j3 m1 m2 m3) :
    calculate_3j_symbol j2 j3 j1 m2 m3 m1 = calculate_3j_symbol j1 j2 j3 m1 m2 m3 ∧
      calculate_3j_symbol j3 j1 j2 m3 m1 m2 = calculate_3j_symbol j1 j2 j3 m1 m2 m3 := by
  have h2 := validate_3j_cyc _ _ _ _ _ _ h
  have q1 : wigner3jParts j2 j3 j1 m2 m3 m1 = wigner3jParts j1 j2 j3 m1 m2 m3 :=
    parts_cyc _ _ _ _ _ _ h
  have q2 : wigner3jParts j3 j1 j2 m3 m1 m2 = wigner3jParts j2 j3 j1 m2 m3 m1 :=
    parts_cyc _ _ _ _ _ _ h2
  constructor
  · rw [calculate_3j_symbol, calculate_3j_symbol, q1]
  · rw [calculate_3j_symbol, calculate_3j_symbol, q2, q1]

/-- C6 witness: the cyclic permutation of the first concrete scenario has
the same value. -/
theorem c6_witness :
    calculate_3j_symbol 1 1 1 (-1) 0 1 = calculate_3j_symbol 1 1 1 1 (-1) 0 :=
  (c6_cyclic 1 1 1 1 (-1) 0 (by norm_num [validate_3j, pairOK, isHalfInt, tri])).1

/-- C7: for a valid 3-j request, negating all three magnetic numbers
multiplies the value by (-1)^(j1+j2+j3). -/
theorem c7_sign_flip (j1 j2 j3 m1 m2 m3 : ℚ) (h : validate_3j j1 j2 j3 m1 m2 m3) :
    calculate_3j_symbol j1 j2 j3 (-m1) (-m2) (-m3) =
      ((negOnePowZ (intOf (j1 + j2 + j3)) : ℚ) : ℝ) *
        calculate_3j_symbol j1 j2 j3 m1 m2 m3 := by
  rw [calculate_3j_symbol, calculate_3j_symbol, parts_neg j1 j2 j3 m1 m2 m3 h]
  dsimp only
  push_cast
  ring

/-- C7 witness: negating the m-column of the first concrete scenario
flips the sign, since j1+j2+j3 = 3 is odd. -/
theorem c7_witness :
    calculate_3j_symbol 1 1 1 (-1) 1 0 = -calculate_3j_symbol 1 1 1 1 (-1) 0 := by
  have h := c7_sign_flip 1 1 1 1 (-1) 0 (by norm_num [validate_3j, pairOK, isHalfInt, tri])
  rw [show (1:ℚ) + 1 + 1 = 3 by norm_num, show intOf (3:ℚ) = 3 by simp [intOf],
    show negOnePowZ 3 = -1 by rw [negOnePowZ]; norm_num] at h
  norm_num at h
  exact h
